import Mathlib

/-!
Verification of the poker-book-translator repository against its
natural-language specification.

The repository consists of a Next.js frontend (catalog, admin, queue and
reader pages backed by a `translated_books` / `book_ratings` database) and a
translation-pipeline backend that the frontend calls over HTTP.  The backend
service itself is not part of the source tree; where a property is decided by
backend behaviour we model the missing component from the specification and
say so in the corresponding doc comment.

Strings are embedded as lists of characters (`Str`) so that every operation
is executable and decidable.  Database timestamps (ISO-8601 `timestamptz`
strings produced by `new Date().toISOString()` and by the database itself)
are embedded as natural numbers: the spec and the code only ever compare
them by temporal order, which lexicographic ISO comparison agrees with.
-/

/-- Character-list strings: every textual field of the embedded records. -/
abbrev Str := List Char

/-- JavaScript `String.prototype.toLowerCase`, character by character
(`page.tsx` lowercases the search query and the book title). -/
def strToLower (s : Str) : Str := s.map Char.toLower

/-- JavaScript `String.prototype.includes`: contiguous-substring test. -/
def strIncludes (s sub : Str) : Bool := decide (sub <:+: s)

/-- Record of the `translated_books` table as declared by the `Book`
interface in `src/frontend/src/lib/supabase.ts` (lines 16-36).  Optional /
nullable TS fields become `Option`; `category` stays a raw string as in the
database; numeric ratings become rationals. -/
structure Book where
  id : Str
  title : Str
  status : Str
  source_format : Str
  target_language : Str
  html_url : Option Str
  epub_url : Option Str
  pdf_url : Option Str
  cover_url : Option Str
  file_size_bytes : Nat
  error_message : Option Str
  created_at : Option Nat
  completed_at : Option Nat
  is_deleted : Bool
  deleted_at : Option Nat
  category : Option Str
  view_count : Option Nat
  rating_avg : Option ℚ
  rating_count : Option Nat
deriving DecidableEq, Repr

/-- Filter predicate of the home page (`src/frontend/src/app/page.tsx`
lines 54-58): `selectedCategory === 'all' || book.category ===
selectedCategory`, conjoined with `!searchQuery ||
book.title.toLowerCase().includes(searchQuery)`.  `searchQuery` is stored
already lower-cased by `handleSearch` (line 50). -/
def homeFilterPred (selectedCategory searchQuery : Str) (book : Book) : Bool :=
  (selectedCategory == "all".toList || book.category == some selectedCategory) &&
  (searchQuery.isEmpty || strIncludes (strToLower book.title) searchQuery)

/-- The `filteredBooks` list of the home page (`page.tsx` lines 54-58). -/
def filteredBooks (books : List Book) (selectedCategory searchQuery : Str) : List Book :=
  books.filter (homeFilterPred selectedCategory searchQuery)

/-- C10 scratch example. -/
example :
    filteredBooks
      [{ id := "1".toList, title := "GTO Wizard".toList, status := "completed".toList,
         source_format := [], target_language := [], html_url := none, epub_url := none,
         pdf_url := none, cover_url := none, file_size_bytes := 0, error_message := none,
         created_at := none, completed_at := none, is_deleted := false, deleted_at := none,
         category := some "nlh".toList, view_count := none, rating_avg := none,
         rating_count := none }]
      "all".toList (strToLower "wiz".toList) ≠ [] := by decide

/-- C10: on the home page, the displayed list is exactly the fetched books
matching the selected category (or "all") and whose lower-cased title
contains the lower-cased query; an empty query matches every book
(`src/frontend/src/app/page.tsx` lines 49-58). -/
theorem c10_home_page_filter (books : List Book) (selectedCategory query : Str) (b : Book) :
    b ∈ filteredBooks books selectedCategory (strToLower query) ↔
      b ∈ books ∧
      (selectedCategory = "all".toList ∨ b.category = some selectedCategory) ∧
      (query = [] ∨ strToLower query <:+: strToLower b.title) := by
  simp [filteredBooks, List.mem_filter, homeFilterPred, strIncludes, strToLower,
    List.isEmpty_iff, List.map_eq_nil_iff]

/-- Strict "earlier in display order" on the `view_count` key of
`getBooks` (`supabase.ts` line 43): `order('view_count', { ascending:
false, nullsFirst: false })`, i.e. descending with nulls last. -/
def vcBefore : Option Nat → Option Nat → Bool
  | some x, some y => y < x
  | some _, none => true
  | none, _ => false

/-- Non-strict tie-break key of `getBooks` (`supabase.ts` line 44):
`order('created_at', { ascending: false })`; PostgREST places nulls first
on a descending sort by default. -/
def caLe : Option Nat → Option Nat → Bool
  | none, _ => true
  | some _, none => false
  | some x, some y => y ≤ x

/-- Total preorder realising the two-key `order` chain of `getBooks`:
`view_count` descending nulls last, then `created_at` descending. -/
def bookLe (a b : Book) : Bool :=
  vcBefore a.view_count b.view_count ||
    (a.view_count == b.view_count && caLe a.created_at b.created_at)

theorem bookLe_trans (a b c : Book) (h1 : bookLe a b = true) (h2 : bookLe b c = true) :
    bookLe a c = true := by
  rcases ha : a.view_count with _ | x <;> rcases hb : b.view_count with _ | y <;>
    rcases hc : c.view_count with _ | z <;>
    rcases ha2 : a.created_at with _ | p <;> rcases hb2 : b.created_at with _ | q <;>
    rcases hc2 : c.created_at with _ | r <;>
    simp_all [bookLe, vcBefore, caLe] <;> omega

theorem bookLe_total (a b : Book) : (bookLe a b || bookLe b a) = true := by
  rcases ha : a.view_count with _ | x <;> rcases hb : b.view_count with _ | y <;>
    rcases ha2 : a.created_at with _ | p <;> rcases hb2 : b.created_at with _ | q <;>
    simp_all [bookLe, vcBefore, caLe] <;> omega

/-- The `getBooks` catalog query (`supabase.ts` lines 38-52): select all
rows with `is_deleted = false`, ordered by `view_count` descending (nulls
last) then `created_at` descending; a query error yields `[]`. -/
def getBooks (db : List Book) (err : Bool) : List Book :=
  if err then [] else (db.filter (fun b => b.is_deleted == false)).mergeSort bookLe

/-- Claim-side reading of the first sort key: `view_count` strictly
descending with null after every non-null value. -/
def viewDescNullsLast : Option Nat → Option Nat → Prop
  | some x, some y => y < x
  | some _, none => True
  | none, _ => False

/-- Claim-side reading of the tie-break key: `created_at` descending. -/
def createdDesc : Option Nat → Option Nat → Prop
  | none, _ => True
  | some _, none => False
  | some x, some y => y ≤ x

/-- Claim-side display order of the catalog listing. -/
def displayOrder (a b : Book) : Prop :=
  viewDescNullsLast a.view_count b.view_count ∨
    (a.view_count = b.view_count ∧ createdDesc a.created_at b.created_at)

theorem bookLe_iff_displayOrder (a b : Book) : bookLe a b = true ↔ displayOrder a b := by
  rcases ha : a.view_count with _ | x <;> rcases hb : b.view_count with _ | y <;>
    rcases ha2 : a.created_at with _ | p <;> rcases hb2 : b.created_at with _ | q <;>
    simp_all [bookLe, vcBefore, caLe, displayOrder, viewDescNullsLast, createdDesc]

/-- C8: `getBooks` returns exactly the non-deleted records, sorted by
`view_count` descending (nulls last) then `created_at` descending, and
returns `[]` on a query error (`supabase.ts` lines 38-52). -/
theorem c8_getBooks_filters_and_sorts (db : List Book) :
    getBooks db true = [] ∧
    (getBooks db false).Perm (db.filter (fun b => b.is_deleted == false)) ∧
    (∀ b, b ∈ getBooks db false ↔ b ∈ db ∧ b.is_deleted = false) ∧
    (getBooks db false).Pairwise displayOrder := by
  refine ⟨rfl, ?_, ?_, ?_⟩
  · simpa [getBooks] using List.mergeSort_perm (db.filter (fun b => b.is_deleted == false)) bookLe
  · intro b
    have hperm := List.mergeSort_perm (db.filter (fun b => b.is_deleted == false)) bookLe
    simp [getBooks, hperm.mem_iff, List.mem_filter]
  · have hs := @List.sorted_mergeSort _ bookLe bookLe_trans bookLe_total
      (db.filter (fun b => b.is_deleted == false))
    simpa [getBooks] using hs.imp (fun {a b} h => (bookLe_iff_displayOrder a b).mp h)

/-- Field-assignment set of a supabase `update({...})` call on
`translated_books`; only the presentation fields the frontend ever writes
appear (`deleteBook`, `handleRestore`, `handleUpdateCategory`,
`handleCoverUpload`, `incrementViewCount`, `submitRating`).  `none` means
the update does not mention the column. -/
structure BookPatch where
  is_deleted : Option Bool := none
  deleted_at : Option (Option Nat) := none
  category : Option (Option Str) := none
  cover_url : Option (Option Str) := none
  view_count : Option (Option Nat) := none
  rating_avg : Option (Option ℚ) := none
  rating_count : Option (Option Nat) := none

/-- Row-level semantics of `update`: assigned columns take their new
value, every unassigned column keeps the stored value. -/
def applyPatch (p : BookPatch) (b : Book) : Book :=
  { b with
    is_deleted := p.is_deleted.getD b.is_deleted,
    deleted_at := p.deleted_at.getD b.deleted_at,
    category := p.category.getD b.category,
    cover_url := p.cover_url.getD b.cover_url,
    view_count := p.view_count.getD b.view_count,
    rating_avg := p.rating_avg.getD b.rating_avg,
    rating_count := p.rating_count.getD b.rating_count }

/-- Table-level semantics of `update(...).eq('id', id)`: patch exactly the
rows whose `id` column matches. -/
def updateWhere (db : List Book) (id : Str) (p : BookPatch) : List Book :=
  db.map fun b => if b.id == id then applyPatch p b else b

/-- The catalog soft delete (`supabase.ts` lines 54-66):
`update({ is_deleted: true, deleted_at: new Date().toISOString() })`. -/
def deleteBook (db : List Book) (id : Str) (now : Nat) : List Book :=
  updateWhere db id { is_deleted := some true, deleted_at := some (some now) }

/-- The admin restore (`src/frontend/src/app/admin/page.tsx` lines
105-116): `update({ is_deleted: false, deleted_at: null })`. -/
def handleRestore (db : List Book) (id : Str) : List Book :=
  updateWhere db id { is_deleted := some false, deleted_at := some none }

/-- C7: soft delete sets only `is_deleted := true` and `deleted_at := now`
on the matching record, restore sets only `is_deleted := false` and
`deleted_at := null`; every other field of every record, and every
non-matching record, is left unchanged (`supabase.ts` lines 54-66,
`admin/page.tsx` lines 105-116). -/
theorem c7_soft_delete_restore_frame (db : List Book) (id : Str) (now i : Nat) (b : Book)
    (h : db[i]? = some b) :
    (deleteBook db id now)[i]? =
        some (if b.id = id then { b with is_deleted := true, deleted_at := some now } else b) ∧
    (handleRestore db id)[i]? =
        some (if b.id = id then { b with is_deleted := false, deleted_at := none } else b) := by
  constructor <;>
    simp [deleteBook, handleRestore, updateWhere, List.getElem?_map, h, applyPatch,
      beq_iff_eq]

/-- Sample catalog record used to instantiate witnesses. -/
def sampleBook : Book :=
  { id := "1".toList, title := "GTO Wizard".toList, status := "completed".toList,
    source_format := "pdf".toList, target_language := "vi".toList,
    html_url := some "h".toList, epub_url := some "e".toList, pdf_url := some "p".toList,
    cover_url := none, file_size_bytes := 7, error_message := none,
    created_at := some 3, completed_at := some 9, is_deleted := false, deleted_at := none,
    category := some "nlh".toList, view_count := some 2, rating_avg := none,
    rating_count := none }

/-- Witness for C7 at a concrete one-row table. -/
theorem c7_soft_delete_restore_frame_witness :
    (deleteBook [sampleBook] "1".toList 5)[0]? =
        some (if sampleBook.id = "1".toList then
          { sampleBook with is_deleted := true, deleted_at := some 5 } else sampleBook) ∧
    (handleRestore [sampleBook] "1".toList)[0]? =
        some (if sampleBook.id = "1".toList then
          { sampleBook with is_deleted := false, deleted_at := none } else sampleBook) :=
  c7_soft_delete_restore_frame [sampleBook] "1".toList 5 0 sampleBook (by decide)

/-- Row of the `book_ratings` table written by `submitRating`
(`supabase.ts` lines 105-140). -/
structure Rating where
  book_id : Str
  user_id : Str
  rating : ℚ
  review : Option Str
deriving DecidableEq, Repr

/-- Conflict key of the upsert: `onConflict: 'book_id,user_id'`. -/
def ratingKeyMatch (bookId userId : Str) (x : Rating) : Bool :=
  x.book_id == bookId && x.user_id == userId

/-- Postgres `upsert` against the unique `(book_id, user_id)` constraint:
update the conflicting row in place if one exists, insert otherwise. -/
def upsertRating (table : List Rating) (r : Rating) : List Rating :=
  if table.any (ratingKeyMatch r.book_id r.user_id) then
    table.map fun x => if ratingKeyMatch r.book_id r.user_id x then r else x
  else table ++ [r]

/-- JavaScript `review || null` (`supabase.ts` line 113): an absent or
empty review string is stored as null. -/
def normReview : Option Str → Option Str
  | some s => if s.isEmpty then none else some s
  | none => none

/-- JavaScript `Math.round`: round half towards positive infinity. -/
def jsRound (q : ℚ) : ℤ := ⌊q + 1 / 2⌋

/-- The `submitRating` flow (`supabase.ts` lines 105-140): upsert the
rating row, re-select all ratings of the book, and if any exist update the
book record with `rating_avg = Math.round(avg * 10) / 10` and
`rating_count = ratings.length`. -/
def submitRating (db : List Book) (table : List Rating) (bookId userId : Str)
    (rating : ℚ) (review : Option Str) : List Book × List Rating :=
  let table2 := upsertRating table ⟨bookId, userId, rating, normReview review⟩
  let rs := table2.filter (fun x => x.book_id == bookId)
  if 0 < rs.length then
    let avg : ℚ := (rs.map Rating.rating).sum / rs.length
    (updateWhere db bookId
      { rating_avg := some (some ((jsRound (avg * 10) : ℚ) / 10)),
        rating_count := some (some rs.length) }, table2)
  else (db, table2)

theorem upsert_filter_key (table : List Rating) (r : Rating)
    (huniq : (table.filter (ratingKeyMatch r.book_id r.user_id)).length ≤ 1) :
    (upsertRating table r).filter (ratingKeyMatch r.book_id r.user_id) = [r] := by
  have hkr : ratingKeyMatch r.book_id r.user_id r = true := by simp [ratingKeyMatch]
  by_cases hany : table.any (ratingKeyMatch r.book_id r.user_id)
  · obtain ⟨x, hx, hkx⟩ := List.any_eq_true.mp hany
    have hmem : x ∈ table.filter (ratingKeyMatch r.book_id r.user_id) :=
      List.mem_filter.mpr ⟨hx, hkx⟩
    have hlen1 : (table.filter (ratingKeyMatch r.book_id r.user_id)).length = 1 := by
      have : 0 < (table.filter (ratingKeyMatch r.book_id r.user_id)).length :=
        List.length_pos.mpr (List.ne_nil_of_mem hmem)
      omega
    obtain ⟨y, hy⟩ := List.length_eq_one.mp hlen1
    have hky : ratingKeyMatch r.book_id r.user_id y = true := by
      have : y ∈ table.filter (ratingKeyMatch r.book_id r.user_id) := by simp [hy]
      exact (List.mem_filter.mp this).2
    have hcomp : (ratingKeyMatch r.book_id r.user_id ∘
        fun x => if ratingKeyMatch r.book_id r.user_id x then r else x) =
        ratingKeyMatch r.book_id r.user_id := by
      funext z
      by_cases hz : ratingKeyMatch r.book_id r.user_id z <;> simp [hz, hkr]
    simp only [upsertRating, hany, if_true]
    rw [List.filter_map, hcomp, hy]
    simp [hky]
  · have hnone : table.filter (ratingKeyMatch r.book_id r.user_id) = [] :=
      List.filter_eq_nil_iff.mpr (by
        intro a ha hka
        exact hany (List.any_eq_true.mpr ⟨a, ha, hka⟩))
    simp only [upsertRating, hany, if_false, Bool.false_eq_true]
    rw [List.filter_append, hnone]
    simp [hkr]

theorem upsert_filter_not_key (table : List Rating) (r : Rating) :
    (upsertRating table r).filter (fun x => !ratingKeyMatch r.book_id r.user_id x) =
      table.filter (fun x => !ratingKeyMatch r.book_id r.user_id x) := by
  have hkr : ratingKeyMatch r.book_id r.user_id r = true := by simp [ratingKeyMatch]
  by_cases hany : table.any (ratingKeyMatch r.book_id r.user_id)
  · have hcomp : ((fun x => !ratingKeyMatch r.book_id r.user_id x) ∘
        fun x => if ratingKeyMatch r.book_id r.user_id x then r else x) =
        fun x => !ratingKeyMatch r.book_id r.user_id x := by
      funext z
      by_cases hz : ratingKeyMatch r.book_id r.user_id z <;> simp [hz, hkr]
    simp only [upsertRating, hany, if_true]
    rw [List.filter_map, hcomp]
    have : ∀ x ∈ table.filter (fun x => !ratingKeyMatch r.book_id r.user_id x),
        (if ratingKeyMatch r.book_id r.user_id x then r else x) = x := by
      intro x hx
      have := (List.mem_filter.mp hx).2
      simp at this
      simp [this]
    rw [List.map_congr_left this]
    simp
  · simp only [upsertRating, hany, if_false, Bool.false_eq_true]
    rw [List.filter_append]
    simp [hkr]

/-- C9: after `submitRating`, the stored table has exactly one row for the
`(bookId, userId)` pair — the new rating (a second submission replaces, it
never adds) — all other rows are untouched, and the book record's
`rating_count` is the number of stored ratings of the book while
`rating_avg` is their mean rounded to one decimal
(`supabase.ts` lines 105-140). -/
theorem c9_submitRating_recomputes (db : List Book) (table : List Rating)
    (bookId userId : Str) (rating : ℚ) (review : Option Str)
    (huniq : (table.filter (ratingKeyMatch bookId userId)).length ≤ 1) :
    let res := submitRating db table bookId userId rating review
    let rs := res.2.filter (fun x => x.book_id == bookId)
    res.2.filter (ratingKeyMatch bookId userId) =
        [⟨bookId, userId, rating, normReview review⟩] ∧
    res.2.filter (fun x => !ratingKeyMatch bookId userId x) =
        table.filter (fun x => !ratingKeyMatch bookId userId x) ∧
    ∀ b ∈ res.1, b.id = bookId →
      b.rating_count = some rs.length ∧
      b.rating_avg =
        some ((jsRound ((rs.map Rating.rating).sum / (rs.length : ℚ) * 10) : ℚ) / 10) := by
  intro res rs
  have hkey : (upsertRating table ⟨bookId, userId, rating, normReview review⟩).filter
      (ratingKeyMatch bookId userId) = [⟨bookId, userId, rating, normReview review⟩] := by
    simpa using upsert_filter_key table ⟨bookId, userId, rating, normReview review⟩
      (by simpa using huniq)
  have hnot : (upsertRating table ⟨bookId, userId, rating, normReview review⟩).filter
      (fun x => !ratingKeyMatch bookId userId x) =
      table.filter (fun x => !ratingKeyMatch bookId userId x) := by
    simpa using upsert_filter_not_key table ⟨bookId, userId, rating, normReview review⟩
  have hrmem : (⟨bookId, userId, rating, normReview review⟩ : Rating) ∈
      upsertRating table ⟨bookId, userId, rating, normReview review⟩ := by
    have : (⟨bookId, userId, rating, normReview review⟩ : Rating) ∈
        (upsertRating table ⟨bookId, userId, rating, normReview review⟩).filter
          (ratingKeyMatch bookId userId) := by
      rw [hkey]; exact List.mem_singleton_self _
    exact (List.mem_filter.mp this).1
  have hpos : 0 < ((upsertRating table ⟨bookId, userId, rating, normReview review⟩).filter
      (fun x => x.book_id == bookId)).length := by
    exact List.length_pos.mpr
      (List.ne_nil_of_mem (List.mem_filter.mpr ⟨hrmem, by simp⟩))
  have hres : res = (updateWhere db bookId
      { rating_avg := some (some ((jsRound
          ((((upsertRating table ⟨bookId, userId, rating, normReview review⟩).filter
            (fun x => x.book_id == bookId)).map Rating.rating).sum /
          (((upsertRating table ⟨bookId, userId, rating, normReview review⟩).filter
            (fun x => x.book_id == bookId)).length : ℚ) * 10) : ℚ) / 10)),
        rating_count := some (some (((upsertRating table
          ⟨bookId, userId, rating, normReview review⟩).filter
            (fun x => x.book_id == bookId)).length)) },
      upsertRating table ⟨bookId, userId, rating, normReview review⟩) := by
    simp only [res, submitRating, hpos, if_pos]
  have hrs : rs = (upsertRating table ⟨bookId, userId, rating, normReview review⟩).filter
      (fun x => x.book_id == bookId) := by
    show List.filter (fun x => x.book_id == bookId) res.2 = _
    rw [hres]
  refine ⟨by rw [show res.2 = _ from congrArg Prod.snd hres]; exact hkey,
    by rw [show res.2 = _ from congrArg Prod.snd hres]; exact hnot, ?_⟩
  intro b hb hbid
  rw [show res.1 = _ from congrArg Prod.fst hres] at hb
  simp only [updateWhere, List.mem_map] at hb
  obtain ⟨x, hx, hbx⟩ := hb
  by_cases hmatch : x.id == bookId
  · rw [if_pos hmatch] at hbx
    subst hbx
    rw [hrs]
    constructor
    · simp [applyPatch]
    · simp [applyPatch]
  · rw [if_neg hmatch] at hbx
    subst hbx
    exact absurd hbid (by simpa using hmatch)

/-- Witness for C9 at a concrete store. -/
theorem c9_submitRating_recomputes_witness :
    let res := submitRating [sampleBook] [] "1".toList "u".toList 4 none
    let rs := res.2.filter (fun x => x.book_id == "1".toList)
    res.2.filter (ratingKeyMatch "1".toList "u".toList) =
        [⟨"1".toList, "u".toList, 4, normReview none⟩] ∧
    res.2.filter (fun x => !ratingKeyMatch "1".toList "u".toList x) =
        List.filter (fun x => !ratingKeyMatch "1".toList "u".toList x) [] ∧
    ∀ b ∈ res.1, b.id = "1".toList →
      b.rating_count = some rs.length ∧
      b.rating_avg =
        some ((jsRound ((rs.map Rating.rating).sum / (rs.length : ℚ) * 10) : ℚ) / 10) :=
  c9_submitRating_recomputes [sampleBook] [] "1".toList "u".toList 4 none (by decide)

/-- Submission status values shown by `getStatusBadge`
(`src/unnamed/part_002` lines 185-198) and fixed by spec §3. -/
inductive SubStatus where
  | pending
  | translating
  | completed
  | failed
deriving DecidableEq, Repr

/-- Record of a queue submission as declared by the `PendingBook`
interface (`src/unnamed/part_002` lines 9-20); field names follow the
source, `status` ranges over `SubStatus`, `priority` is a signed number,
`metadata` an opaque key/value bag. -/
structure PendingSubmission where
  id : Str
  title : Str
  original_title : Option Str
  pdf_url : Str
  source : Str
  category : Str
  priority : Int
  status : SubStatus
  created_at : Nat
  metadata : List (Str × Str)
deriving DecidableEq, Repr

/-- Modelled from the spec: the queue backend's job state machine (§4.1)
is not under src/ — only its `QueuePage` caller is.  The lifecycle
operations are the trigger (`pending → translating`), the two pipeline
finalisations (`translating → completed/failed`) and the explicit operator
reset of a failed submission back to `pending` (§3 invariant). -/
inductive QueueOp where
  | trigger
  | finalizeSuccess
  | finalizeFailure
  | operatorReset
deriving DecidableEq, Repr

/-- Modelled from the spec: status transition table of the job state
machine (§4.1); `none` means the operation is rejected in that state
(`InvalidStateError`), so the status does not move. -/
def nextStatus : QueueOp → SubStatus → Option SubStatus
  | .trigger, .pending => some .translating
  | .finalizeSuccess, .translating => some .completed
  | .finalizeFailure, .translating => some .failed
  | .operatorReset, .failed => some .pending
  | _, _ => none

/-- C1: every reachable status transition is one of `pending →
translating`, `translating → completed`, `translating → failed` or the
explicit operator reset `failed → pending`; `completed` is terminal and
the reset is the only way out of `failed` (spec §3/§4.1; modelled — the
backend state machine is not under src/). -/
theorem c1_status_transitions (op : QueueOp) (s s2 : SubStatus)
    (h : nextStatus op s = some s2) :
    ((s = .pending ∧ s2 = .translating) ∨
     (s = .translating ∧ (s2 = .completed ∨ s2 = .failed)) ∨
     (s = .failed ∧ s2 = .pending ∧ op = .operatorReset)) ∧
    (∀ op2 s3, nextStatus op2 .completed = none ∧
      (nextStatus op2 .failed = some s3 → op2 = .operatorReset ∧ s3 = .pending)) := by
  constructor
  · cases op <;> cases s <;> simp_all [nextStatus]
  · intro op2 s3
    constructor
    · cases op2 <;> rfl
    · intro hh
      cases op2 <;> simp_all [nextStatus]

/-- Witness for C1 at the trigger transition. -/
theorem c1_status_transitions_witness :
    ((SubStatus.pending = .pending ∧ SubStatus.translating = .translating) ∨
     (SubStatus.pending = .translating ∧
       (SubStatus.translating = .completed ∨ SubStatus.translating = .failed)) ∨
     (SubStatus.pending = .failed ∧ SubStatus.translating = .pending ∧
       QueueOp.trigger = .operatorReset)) ∧
    (∀ op2 s3, nextStatus op2 .completed = none ∧
      (nextStatus op2 .failed = some s3 → op2 = .operatorReset ∧ s3 = .pending)) :=
  c1_status_transitions .trigger .pending .translating (by decide)

/-- Error taxonomy of the queue API (spec §7). -/
inductive QueueError where
  | validationError
  | conflictError
  | invalidStateError
deriving DecidableEq, Repr

/-- Payload of a `POST /queue/upload` request: whether the uploaded file
is a PDF, and its size in bytes. -/
structure UploadPayload where
  isPdf : Bool
  sizeBytes : Nat
deriving DecidableEq, Repr

/-- Modelled from the spec: the admission handler of `POST /queue/upload`
is part of the missing backend (only the `handleUpload` caller in
`src/unnamed/part_002` lines 100-146 is in the tree).  Per §4.1, `admitUpload`
rejects non-PDF payloads and payloads above the configured size ceiling
with `ValidationError`, and otherwise creates a PendingSubmission with
`status = pending`. -/
def admitUpload (maxSizeBytes : Nat) (p : UploadPayload) (id title category source pdfUrl : Str)
    (priority : Int) (now : Nat) : Except QueueError PendingSubmission :=
  if !p.isPdf then .error .validationError
  else if maxSizeBytes < p.sizeBytes then .error .validationError
  else .ok
    { id := id, title := title, original_title := none, pdf_url := pdfUrl,
      source := source, category := category, priority := priority,
      status := .pending, created_at := now, metadata := [] }

/-- C2: admission fails with `ValidationError` exactly on non-PDF or
over-sized payloads, and every accepted payload yields a submission with
status `pending` (spec §4.1; modelled — the upload handler is not under
src/). -/
theorem c2_admit_validation (maxSizeBytes : Nat) (p : UploadPayload)
    (id title category source pdfUrl : Str) (priority : Int) (now : Nat) :
    ((p.isPdf = false ∨ maxSizeBytes < p.sizeBytes) ↔
      admitUpload maxSizeBytes p id title category source pdfUrl priority now =
        .error .validationError) ∧
    (∀ sub, admitUpload maxSizeBytes p id title category source pdfUrl priority now = .ok sub →
      sub.status = .pending ∧ p.isPdf = true ∧ p.sizeBytes ≤ maxSizeBytes) := by
  constructor
  · cases hp : p.isPdf <;> by_cases hs : maxSizeBytes < p.sizeBytes <;>
      simp_all [admitUpload]
  · intro sub hsub
    have hp : p.isPdf = true := by
      by_contra hc
      have hp2 : p.isPdf = false := by simpa using hc
      simp [admitUpload, hp2] at hsub
    have hs : ¬ maxSizeBytes < p.sizeBytes := by
      intro hlt
      simp [admitUpload, hp, hlt] at hsub
    have hsub2 : sub =
        { id := id, title := title, original_title := none, pdf_url := pdfUrl,
          source := source, category := category, priority := priority,
          status := .pending, created_at := now, metadata := [] } := by
      simp [admitUpload, hp, hs] at hsub
      exact hsub.symm
    subst hsub2
    exact ⟨rfl, hp, by omega⟩

/-- Witness for C2 at a concrete accepted payload. -/
theorem c2_admit_validation_witness :
    (((UploadPayload.mk true 100).isPdf = false ∨ 1000 < (UploadPayload.mk true 100).sizeBytes) ↔
      admitUpload 1000 (UploadPayload.mk true 100) "i".toList "t".toList "general".toList
        "upload".toList "u".toList 0 3 = .error .validationError) ∧
    (∀ sub, admitUpload 1000 (UploadPayload.mk true 100) "i".toList "t".toList "general".toList
        "upload".toList "u".toList 0 3 = .ok sub →
      sub.status = .pending ∧ (UploadPayload.mk true 100).isPdf = true ∧
        (UploadPayload.mk true 100).sizeBytes ≤ 1000) :=
  c2_admit_validation 1000 (UploadPayload.mk true 100) "i".toList "t".toList
    "general".toList "upload".toList "u".toList 0 3

/-- Modelled from the spec: the `GET /queue/pending` handler is part of
the missing backend (only the `loadPendingBooks` caller in
`src/unnamed/part_002` lines 63-91 is in the tree).  Per §4.1 the filter
has optional `status` and `origin` components, matched exactly. -/
def pendingFilter (fs : Option SubStatus) (fo : Option Str)
    (s : PendingSubmission) : Bool :=
  (match fs with | none => true | some x => s.status == x) &&
  (match fo with | none => true | some o => s.source == o)

/-- Modelled from the spec: listing order of `listPending` (§4.1) —
`priority` descending, then `created_at` ascending. -/
def pendingLe (a b : PendingSubmission) : Bool :=
  b.priority < a.priority ||
    (a.priority == b.priority && a.created_at ≤ b.created_at)

theorem pendingLe_trans (a b c : PendingSubmission)
    (h1 : pendingLe a b = true) (h2 : pendingLe b c = true) : pendingLe a c = true := by
  simp only [pendingLe, Bool.or_eq_true, Bool.and_eq_true, decide_eq_true_eq,
    beq_iff_eq] at *
  omega

theorem pendingLe_total (a b : PendingSubmission) :
    (pendingLe a b || pendingLe b a) = true := by
  simp only [pendingLe, Bool.or_eq_true, Bool.and_eq_true, decide_eq_true_eq,
    beq_iff_eq]
  omega

/-- Modelled from the spec: `listPending` (§4.1) — filter as requested,
order by `priority` descending with `created_at` ascending as tie-break. -/
def listPending (subs : List PendingSubmission) (fs : Option SubStatus)
    (fo : Option Str) : List PendingSubmission :=
  (subs.filter (pendingFilter fs fo)).mergeSort pendingLe

/-- Claim-side reading of the queue listing order: higher priority first,
equal priorities oldest first. -/
def queueOrder (a b : PendingSubmission) : Prop :=
  b.priority < a.priority ∨ (a.priority = b.priority ∧ a.created_at ≤ b.created_at)

/-- C3: `listPending` returns exactly the submissions matching the
status/origin filter, sorted by priority descending and createdAt
ascending among equal priorities (spec §4.1; modelled — the pending-list
handler is not under src/). -/
theorem c3_listPending_filter_and_order (subs : List PendingSubmission)
    (fs : Option SubStatus) (fo : Option Str) :
    (listPending subs fs fo).Perm (subs.filter (pendingFilter fs fo)) ∧
    (∀ s, s ∈ listPending subs fs fo ↔
      s ∈ subs ∧ (∀ x, fs = some x → s.status = x) ∧ (∀ o, fo = some o → s.source = o)) ∧
    (listPending subs fs fo).Pairwise queueOrder := by
  refine ⟨?_, ?_, ?_⟩
  · simpa [listPending] using
      List.mergeSort_perm (subs.filter (pendingFilter fs fo)) pendingLe
  · intro s
    have hperm := List.mergeSort_perm (subs.filter (pendingFilter fs fo)) pendingLe
    rw [listPending, hperm.mem_iff, List.mem_filter]
    rcases fs with _ | x <;> rcases fo with _ | o <;>
      simp [pendingFilter]
  · have hs := @List.sorted_mergeSort _ pendingLe pendingLe_trans pendingLe_total
      (subs.filter (pendingFilter fs fo))
    refine List.Pairwise.imp ?_ (by simpa [listPending] using hs)
    intro a b hab
    simpa [pendingLe, queueOrder, Bool.or_eq_true, Bool.and_eq_true,
      decide_eq_true_eq, beq_iff_eq] using hab

/-- Modelled from the spec: the `DELETE /queue/pending/{id}` handler is
part of the missing backend (only the `handleDelete` caller in
`src/unnamed/part_002` lines 172-183 is in the tree).  Per §4.1 `remove`
deletes a submission only when it is not currently translating, otherwise
it fails with `ConflictError` and leaves the queue unchanged. -/
def removeSub (subs : List PendingSubmission) (id : Str) :
    Except QueueError (List PendingSubmission) :=
  match subs.find? (fun s => s.id == id) with
  | none => .error .invalidStateError
  | some s =>
    if s.status == SubStatus.translating then .error .conflictError
    else .ok (subs.filter (fun x => !(x.id == id)))

/-- C6: `remove(id)` deletes the submission with that id exactly when its
status is not `translating`; a translating submission makes the call fail
with `ConflictError` and no queue state is produced (spec §4.1; modelled —
the delete handler is not under src/). -/
theorem c6_remove_conflict (subs : List PendingSubmission) (id : Str)
    (s : PendingSubmission) (h : subs.find? (fun s => s.id == id) = some s) :
    (s.status = .translating → removeSub subs id = .error .conflictError) ∧
    (s.status ≠ .translating →
      ∃ rest, removeSub subs id = .ok rest ∧ ∀ x, x ∈ rest ↔ x ∈ subs ∧ x.id ≠ id) := by
  constructor
  · intro hs
    simp [removeSub, h, hs]
  · intro hs
    refine ⟨subs.filter (fun x => !(x.id == id)), ?_, ?_⟩
    · have : (s.status == SubStatus.translating) = false := by simpa using hs
      simp [removeSub, h, this]
    · intro x
      simp [List.mem_filter]

/-- Sample queue row used to instantiate witnesses. -/
def samplePending : PendingSubmission :=
  { id := "41".toList, title := "MOP".toList, original_title := none,
    pdf_url := "u".toList, source := "upload".toList, category := "general".toList,
    priority := 2, status := .pending, created_at := 11, metadata := [] }

/-- Witness for C6 on a one-element queue holding a pending submission. -/
theorem c6_remove_conflict_witness :
    (samplePending.status = .translating →
      removeSub [samplePending] "41".toList = .error .conflictError) ∧
    (samplePending.status ≠ .translating →
      ∃ rest, removeSub [samplePending] "41".toList = .ok rest ∧
        ∀ x, x ∈ rest ↔ x ∈ [samplePending] ∧ x.id ≠ "41".toList) :=
  c6_remove_conflict [samplePending] "41".toList samplePending (by decide)

/-- Status values of a TranslationRecord (spec §3, and the `status` union
of the `Book` interface in `supabase.ts` line 19). -/
inductive RecStatus where
  | pending
  | processing
  | completed
  | failed
deriving DecidableEq, Repr

/-- Modelled from the spec: the durable TranslationRecord (§3) written by
the missing pipeline backend; the frontend `Book` interface only reads it. -/
structure TranslationRecord where
  id : Str
  title : Str
  status : RecStatus
  htmlURL : Option Str
  epubURL : Option Str
  pdfURL : Option Str
  coverURL : Option Str
  inputTokens : Nat
  outputTokens : Nat
  estimatedCost : ℚ
  pageCount : Nat
  fileSizeBytes : Nat
  errorMessage : Option Str
  createdAt : Nat
  completedAt : Option Nat
  isDeleted : Bool
  deletedAt : Option Nat
deriving DecidableEq, Repr

/-- Outcome of one pipeline run: on success the renderer/storage layer
hands over the three artifact URLs, the page count and the output size; on
failure a human-readable message (spec §4.1, §4.4, §7). -/
inductive JobResult where
  | success (htmlURL epubURL pdfURL : Str) (pageCount fileSizeBytes : Nat)
  | failure (message : Str)
deriving DecidableEq, Repr

/-- Modelled from the spec: the finalisation step of §4.1/§7 — `completed`
records all three artifact URLs and the renderer's page/size counters,
`failed` records the error message; both stamp `completedAt`. -/
def finalize (r : TranslationRecord) (now : Nat) : JobResult → TranslationRecord
  | .success h e p pg sz =>
    { r with
      status := .completed, htmlURL := some h, epubURL := some e,
      pdfURL := some p, pageCount := pg, fileSizeBytes := sz, completedAt := some now }
  | .failure msg =>
    { r with
      status := .failed, errorMessage := some msg, completedAt := some now }

/-- Claim-side record invariant of spec §7: failed records carry an error
message, completed records carry all three artifact URLs and non-zero
page/size counters. -/
def recordWellFormed (r : TranslationRecord) : Prop :=
  (r.status = .failed → r.errorMessage ≠ none) ∧
  (r.status = .completed →
    r.htmlURL ≠ none ∧ r.epubURL ≠ none ∧ r.pdfURL ≠ none ∧
    r.pageCount ≠ 0 ∧ r.fileSizeBytes ≠ 0)

/-- C5: every record finalised as `failed` carries a non-null error
message, and every record finalised as `completed` carries all three
artifact URLs together with non-zero `pageCount` and `fileSizeBytes`,
provided the renderer's counters are non-zero as §4.4/§7 state (spec
§3/§7; modelled — the pipeline writer is not under src/, the frontend
`Book` reader is `supabase.ts` lines 16-36). -/
theorem c5_finalized_record_wellformed (r : TranslationRecord) (now : Nat)
    (res : JobResult)
    (hcounts : ∀ h e p pg sz, res = .success h e p pg sz → 0 < pg ∧ 0 < sz) :
    recordWellFormed (finalize r now res) := by
  cases res with
  | success h e p pg sz =>
    obtain ⟨h1, h2⟩ := hcounts h e p pg sz rfl
    constructor
    · intro hst
      simp [finalize] at hst
    · intro _
      refine ⟨by simp [finalize], by simp [finalize], by simp [finalize], ?_, ?_⟩ <;>
        simp [finalize] <;> omega
  | failure msg =>
    constructor
    · intro _
      simp [finalize]
    · intro hst
      simp [finalize] at hst

/-- Witness for C5 at a concrete failed run. -/
theorem c5_finalized_record_wellformed_witness :
    recordWellFormed (finalize
      { id := "1".toList, title := "t".toList, status := .processing,
        htmlURL := none, epubURL := none, pdfURL := none, coverURL := none,
        inputTokens := 0, outputTokens := 0, estimatedCost := 0, pageCount := 0,
        fileSizeBytes := 0, errorMessage := none, createdAt := 1, completedAt := none,
        isDeleted := false, deletedAt := none }
      9 (.failure "provider outage".toList)) :=
  c5_finalized_record_wellformed
    { id := "1".toList, title := "t".toList, status := .processing,
      htmlURL := none, epubURL := none, pdfURL := none, coverURL := none,
      inputTokens := 0, outputTokens := 0, estimatedCost := 0, pageCount := 0,
      fileSizeBytes := 0, errorMessage := none, createdAt := 1, completedAt := none,
      isDeleted := false, deletedAt := none }
    9 (.failure "provider outage".toList)
    (by intro h e p pg sz hh; cases hh)

/-- Separator class `[\/\\]` of the reader's image-path regexes
(`src/unnamed/part_003` lines 31-43). -/
def isSep (c : Char) : Bool := c == '/' || c == '\\'

/-- Pattern occurrence test: `pat` occurs in `v` starting at index `j`. -/
def patAt (pat v : Str) (j : Nat) : Bool := pat.isPrefixOf (v.drop j)

/-- Separator test on the head of a list; `false` on the empty list. -/
def headSep : Str → Bool
  | c :: _ => isSep c
  | [] => false

/-- Forward-slash test on the head of a list; `false` on the empty list. -/
def headSlash : Str → Bool
  | c :: _ => c == '/'
  | [] => false

/-- Separator character at index `j` of `v`. -/
def isSepAt (v : Str) (j : Nat) : Bool := headSep (v.drop j)

/-- Forward slash at index `j` of `v`. -/
def isSlashAt (v : Str) (j : Nat) : Bool := headSlash (v.drop j)

/-- Occurrence of `[\/\\]images[\/\\]` at index `j` of `v` followed by at
least one more character (the `([^"]+)` capture of patterns 2 and 3). -/
def sepImagesAt (v : Str) (j : Nat) : Bool :=
  isSepAt v j && patAt "images".toList v (j + 1) && isSepAt v (j + 7) &&
    decide (j + 8 < v.length)

/-- Occurrence of `temp_jobs` or `output` ending at or before index `j`
(the `[^"]*?(?:temp_jobs|output)[^"]*` part of pattern 2). -/
def tokenBefore (v : Str) (j : Nat) : Bool :=
  (List.range (j + 1)).any fun i =>
    (patAt "temp_jobs".toList v i && decide (i + 9 ≤ j)) ||
    (patAt "output".toList v i && decide (i + 6 ≤ j))

/-- Last index below `n` satisfying `p` — the match position a greedy
`[^"]*` prefix selects. -/
def findLastIdx (p : Nat → Bool) (n : Nat) : Option Nat :=
  (List.range n).foldl (fun acc j => if p j then some j else acc) none

/-- The `\.?\/?` prefix consumed by pattern 1
(`src/unnamed/part_003` line 31). -/
def stripDotSlash (v : Str) : Str :=
  match v with
  | c :: t =>
    if c = '.' then
      match t with
      | c2 :: t2 => if c2 = '/' then t2 else t
      | [] => t
    else if c = '/' then t
    else v
  | [] => v

/-- Pattern 1 (`part_003` lines 31-34): a whole `src` value of shape
`\.?\/?images\/[^"]+` is replaced by `baseUrl`, a slash, and the value's
suffix from its first `images/` on (the callback re-matches
`images\/[^"]+` inside the match). -/
def pass1 (baseUrl v : Str) : Str :=
  let r := stripDotSlash v
  if "images/".toList.isPrefixOf r && decide (7 < r.length) then
    baseUrl ++ '/' :: r
  else v

/-- Pattern 2 (`part_003` line 37): a value containing `temp_jobs` or
`output` and, later, `[\/\\]images[\/\\]` with a non-empty tail is
replaced by `baseUrl/images/` plus the tail after the greediest such
separator occurrence. -/
def pass2 (baseUrl v : Str) : Str :=
  match findLastIdx (fun j => sepImagesAt v j && tokenBefore v j) v.length with
  | some j => baseUrl ++ "/images/".toList ++ v.drop (j + 8)
  | none => v

/-- Occurrence of `\images\` at index `j` with a non-empty tail
(pattern 3). -/
def p3At (v : Str) (j : Nat) : Bool :=
  patAt "\\images\\".toList v j && decide (j + 8 < v.length)

/-- Pattern 3 (`part_003` line 40): backslash-delimited `\images\` paths,
greediest occurrence, same replacement as pattern 2. -/
def pass3 (baseUrl v : Str) : Str :=
  match findLastIdx (p3At v) v.length with
  | some j => baseUrl ++ "/images/".toList ++ v.drop (j + 8)
  | none => v

/-- Occurrence of `images/` at index `j`, at the start of the value or
right after a forward slash, with a non-empty tail (pattern 4's
`([^"]*\/)?images\/([^"]+)`). -/
def p4At (v : Str) (j : Nat) : Bool :=
  patAt "images/".toList v j && decide (j + 7 < v.length) &&
    (decide (j = 0) || isSlashAt v (j - 1))

/-- Negative lookahead `(?!https?:\/\/|data:)` of pattern 4. -/
def httpDataStart (v : Str) : Bool :=
  "http://".toList.isPrefixOf v || "https://".toList.isPrefixOf v ||
    "data:".toList.isPrefixOf v

/-- Pattern 4 (`part_003` line 43): any remaining relative `images/` path
not starting with `http://`, `https://` or `data:`. -/
def pass4 (baseUrl v : Str) : Str :=
  if httpDataStart v then v
  else
    match findLastIdx (p4At v) v.length with
    | some j => baseUrl ++ "/images/".toList ++ v.drop (j + 7)
    | none => v

/-- JavaScript `String.prototype.replace` with a plain-string search and
empty replacement: remove the first occurrence (`part_003` line 27). -/
def removeFirst (pat v : Str) : Str :=
  match (List.range (v.length + 1)).find? (fun i => pat.isPrefixOf (v.drop i)) with
  | some i => v.take i ++ v.drop (i + pat.length)
  | none => v

/-- Line 27 of `part_003`: `const baseUrl = htmlUrl.replace('/result.html', '')`. -/
def baseUrlOf (htmlUrl : Str) : Str := removeFirst "/result.html".toList htmlUrl

/-- The four replacement passes applied to one `src` attribute value, in
source order (`part_003` lines 31-43).  Each regex starts at a literal
`src="`, keeps every inner class inside `[^"]`, and ends at the closing
quote, so on a document it rewrites whole attribute values independently. -/
def rewriteValue (baseUrl v : Str) : Str :=
  pass4 baseUrl (pass3 baseUrl (pass2 baseUrl (pass1 baseUrl v)))

/-- The reader's `fetchContent` image-path fix over a document, modelled
as the list of its `src` attribute values (`part_003` lines 19-51). -/
def rewriteBookHtml (htmlUrl : Str) (srcs : List Str) : List Str :=
  srcs.map (rewriteValue (baseUrlOf htmlUrl))

/-- C4 scratch behaviour checks on concrete values. -/
example :
    rewriteValue "https://h/b/42".toList "images/a.png".toList =
      "https://h/b/42/images/a.png".toList := by decide

example :
    rewriteValue "https://h/b/42".toList "./images/a.png".toList =
      "https://h/b/42/images/a.png".toList := by decide

example :
    rewriteValue "https://h/b/42".toList "temp_jobs/j7/output/images/f3.png".toList =
      "https://h/b/42/images/f3.png".toList := by decide

example :
    rewriteValue "https://h/b/42".toList "C:\\jobs\\images\\f3.png".toList =
      "https://h/b/42/images/f3.png".toList := by decide

example :
    rewriteValue "https://h/b/42".toList "https://cdn.x.com/images/p.png".toList =
      "https://cdn.x.com/images/p.png".toList := by decide

example :
    rewriteValue "https://h/b/42".toList
        "https://cdn.x.com/output/images/p.png".toList =
      "https://h/b/42/images/p.png".toList := by decide

example :
    baseUrlOf "https://h/b/42/result.html".toList = "https://h/b/42".toList := by decide

/-- Counterexample to C4 as stated: at this concrete document, an
`https://` src containing `output/images/` is rewritten by pattern 2, and
because line 27 removes the first (not the trailing) `/result.html`, the
relative `images/` src is not mapped onto the trailing-removal base URL
either. -/
theorem c4_counterexample :
    rewriteBookHtml "https://h/result.htmlX/result.html".toList
        ["https://cdn.example.com/output/images/pic.png".toList, "images/a.png".toList] ≠
      ["https://cdn.example.com/output/images/pic.png".toList,
        "https://h/result.htmlX/images/a.png".toList] := by decide

theorem findLastIdx_succ (p : Nat → Bool) (n : Nat) :
    findLastIdx p (n + 1) = if p n then some n else findLastIdx p n := by
  simp [findLastIdx, List.range_succ, List.foldl_append]

theorem findLastIdx_eq_none (p : Nat → Bool) (n : Nat)
    (h : ∀ j, j < n → p j = false) : findLastIdx p n = none := by
  induction n with
  | zero => rfl
  | succ m ih =>
    rw [findLastIdx_succ, if_neg (by simp [h m (Nat.lt_succ_self m)])]
    exact ih fun j hj => h j (hj.trans (Nat.lt_succ_self m))

theorem findLastIdx_eq_some (p : Nat → Bool) (n j : Nat) (hj : j < n)
    (hpj : p j = true) (hmax : ∀ k, j < k → k < n → p k = false) :
    findLastIdx p n = some j := by
  induction n with
  | zero => omega
  | succ m ih =>
    rw [findLastIdx_succ]
    by_cases hjm : j = m
    · subst hjm
      rw [if_pos hpj]
    · have hjm2 : j < m := by omega
      rw [if_neg (by simp [hmax m hjm2 (Nat.lt_succ_self m)])]
      exact ih hjm2 fun k h1 h2 => hmax k h1 (h2.trans (Nat.lt_succ_self m))

theorem findLastIdx_some_sound (p : Nat → Bool) (n j : Nat)
    (h : findLastIdx p n = some j) : j < n ∧ p j = true := by
  induction n with
  | zero => simp [findLastIdx] at h
  | succ m ih =>
    rw [findLastIdx_succ] at h
    by_cases hm : p m = true
    · rw [if_pos hm] at h
      obtain rfl : m = j := by simpa using h
      exact ⟨Nat.lt_succ_self m, hm⟩
    · rw [if_neg (by simp [hm])] at h
      obtain ⟨h1, h2⟩ := ih h
      exact ⟨h1.trans (Nat.lt_succ_self m), h2⟩

theorem patAt_iff (pat v : Str) (j : Nat) :
    patAt pat v j = true ↔ pat <+: v.drop j :=
  List.isPrefixOf_iff_prefix

theorem headSep_drop_false (n : Str) (hnsep : ∀ ch ∈ n, isSep ch = false)
    (t : Nat) : headSep (n.drop t) = false := by
  cases hd : n.drop t with
  | nil => rfl
  | cons c rest =>
    have hc : c ∈ n := List.mem_of_mem_drop (hd ▸ List.mem_cons_self c rest)
    simpa [headSep] using hnsep c hc

theorem tokenBefore_intro_temp (v : Str) (i j : Nat)
    (h : patAt "temp_jobs".toList v i = true) (hij : i + 9 ≤ j) :
    tokenBefore v j = true := by
  unfold tokenBefore
  rw [List.any_eq_true]
  refine ⟨i, List.mem_range.mpr (by omega), ?_⟩
  simp only [Bool.or_eq_true, Bool.and_eq_true, decide_eq_true_eq]
  exact Or.inl ⟨h, hij⟩

theorem tokenBefore_intro_out (v : Str) (i j : Nat)
    (h : patAt "output".toList v i = true) (hij : i + 6 ≤ j) :
    tokenBefore v j = true := by
  unfold tokenBefore
  rw [List.any_eq_true]
  refine ⟨i, List.mem_range.mpr (by omega), ?_⟩
  simp only [Bool.or_eq_true, Bool.and_eq_true, decide_eq_true_eq]
  exact Or.inr ⟨h, hij⟩

theorem tokenBefore_elim (v : Str) (j : Nat) (h : tokenBefore v j = true) :
    ∃ i, (patAt "temp_jobs".toList v i = true ∧ i + 9 ≤ j) ∨
      (patAt "output".toList v i = true ∧ i + 6 ≤ j) := by
  unfold tokenBefore at h
  rw [List.any_eq_true] at h
  obtain ⟨i, _, hcond⟩ := h
  simp only [Bool.or_eq_true, Bool.and_eq_true, decide_eq_true_eq] at hcond
  exact ⟨i, hcond⟩

theorem tokenBefore_mono (v : Str) (j j2 : Nat) (hjj : j ≤ j2)
    (h : tokenBefore v j = true) : tokenBefore v j2 = true := by
  obtain ⟨i, hi⟩ := tokenBefore_elim v j h
  rcases hi with ⟨hp, hb⟩ | ⟨hp, hb⟩
  · exact tokenBefore_intro_temp v i j2 hp (by omega)
  · exact tokenBefore_intro_out v i j2 hp (by omega)

theorem len_canonical (u n : Str) (s1 s2 : Char) :
    (u ++ (s1 :: ("images".toList ++ (s2 :: n)))).length = u.length + 8 + n.length := by
  have h6 : ("images".toList).length = 6 := rfl
  simp [List.length_append, h6]
  omega

theorem drop_canonical_8 (u n : Str) (s1 s2 : Char) :
    (u ++ (s1 :: ("images".toList ++ (s2 :: n)))).drop (u.length + 8) = n := by
  rw [List.drop_append 8]
  rfl

theorem sepImagesAt_canonical (u n : Str) (s1 s2 : Char) (hs1 : isSep s1 = true)
    (hs2 : isSep s2 = true) (hn : n ≠ []) :
    sepImagesAt (u ++ (s1 :: ("images".toList ++ (s2 :: n)))) u.length = true := by
  have hd0 : (u ++ (s1 :: ("images".toList ++ (s2 :: n)))).drop u.length =
      s1 :: ("images".toList ++ (s2 :: n)) := List.drop_left _ _
  have hd1 : (u ++ (s1 :: ("images".toList ++ (s2 :: n)))).drop (u.length + 1) =
      "images".toList ++ (s2 :: n) := by
    rw [List.drop_append 1]
    rfl
  have hd7 : (u ++ (s1 :: ("images".toList ++ (s2 :: n)))).drop (u.length + 7) =
      s2 :: n := by
    rw [List.drop_append 7]
    rfl
  have hpat : patAt "images".toList (u ++ (s1 :: ("images".toList ++ (s2 :: n))))
      (u.length + 1) = true := by
    rw [patAt_iff, hd1]
    exact List.prefix_append _ _
  have hnpos : 0 < n.length := List.length_pos.mpr hn
  have hlen : u.length + 8 < (u ++ (s1 :: ("images".toList ++ (s2 :: n)))).length := by
    rw [len_canonical u n s1 s2]
    omega
  unfold sepImagesAt isSepAt
  rw [hd0, hd7, hpat]
  simp only [headSep, hs1, hs2, Bool.true_and, Bool.and_true]
  simpa using hlen

theorem sepImagesAt_canonical_max (u n : Str) (s1 s2 : Char)
    (hnsep : ∀ ch ∈ n, isSep ch = false) (k : Nat) (hk : u.length < k) :
    sepImagesAt (u ++ (s1 :: ("images".toList ++ (s2 :: n)))) k = false := by
  have harith : k + 7 = u.length + (8 + (k - u.length - 1)) := by omega
  have hd : (u ++ (s1 :: ("images".toList ++ (s2 :: n)))).drop (k + 7) =
      n.drop (k - u.length - 1) := by
    rw [harith, List.drop_append (8 + (k - u.length - 1)),
      ← List.drop_drop (k - u.length - 1) 8]
    rfl
  have h3 : isSepAt (u ++ (s1 :: ("images".toList ++ (s2 :: n)))) (k + 7) = false := by
    unfold isSepAt
    rw [hd]
    exact headSep_drop_false n hnsep _
  unfold sepImagesAt
  rw [h3]
  simp

theorem pass2_cases (baseUrl u n : Str) (s1 s2 : Char) (hs1 : isSep s1 = true)
    (hs2 : isSep s2 = true) (hn : n ≠ []) (hnsep : ∀ ch ∈ n, isSep ch = false) :
    (tokenBefore (u ++ (s1 :: ("images".toList ++ (s2 :: n)))) u.length = true ∧
      pass2 baseUrl (u ++ (s1 :: ("images".toList ++ (s2 :: n)))) =
        baseUrl ++ "/images/".toList ++ n) ∨
    (tokenBefore (u ++ (s1 :: ("images".toList ++ (s2 :: n)))) u.length = false ∧
      pass2 baseUrl (u ++ (s1 :: ("images".toList ++ (s2 :: n)))) =
        u ++ (s1 :: ("images".toList ++ (s2 :: n)))) := by
  have hnpos : 0 < n.length := List.length_pos.mpr hn
  have hlen := len_canonical u n s1 s2
  by_cases htok : tokenBefore (u ++ (s1 :: ("images".toList ++ (s2 :: n)))) u.length = true
  · left
    refine ⟨htok, ?_⟩
    have hfind : findLastIdx
        (fun j => sepImagesAt (u ++ (s1 :: ("images".toList ++ (s2 :: n)))) j &&
          tokenBefore (u ++ (s1 :: ("images".toList ++ (s2 :: n)))) j)
        (u ++ (s1 :: ("images".toList ++ (s2 :: n)))).length = some u.length := by
      refine findLastIdx_eq_some _ _ u.length (by omega) ?_ ?_
      · rw [Bool.and_eq_true]
        exact ⟨sepImagesAt_canonical u n s1 s2 hs1 hs2 hn, htok⟩
      · intro k h1 h2
        rw [sepImagesAt_canonical_max u n s1 s2 hnsep k h1]
        simp
    unfold pass2
    rw [hfind]
    show baseUrl ++ "/images/".toList ++
        (u ++ (s1 :: ("images".toList ++ (s2 :: n)))).drop (u.length + 8) =
      baseUrl ++ "/images/".toList ++ n
    rw [drop_canonical_8]
  · right
    have htok2 : tokenBefore (u ++ (s1 :: ("images".toList ++ (s2 :: n))))
        u.length = false := by
      simpa using htok
    refine ⟨htok2, ?_⟩
    have hfind : findLastIdx
        (fun j => sepImagesAt (u ++ (s1 :: ("images".toList ++ (s2 :: n)))) j &&
          tokenBefore (u ++ (s1 :: ("images".toList ++ (s2 :: n)))) j)
        (u ++ (s1 :: ("images".toList ++ (s2 :: n)))).length = none := by
      refine findLastIdx_eq_none _ _ ?_
      intro j hj
      by_cases hjL : u.length < j
      · rw [sepImagesAt_canonical_max u n s1 s2 hnsep j hjL]
        simp
      · by_cases hb : (sepImagesAt (u ++ (s1 :: ("images".toList ++ (s2 :: n)))) j &&
            tokenBefore (u ++ (s1 :: ("images".toList ++ (s2 :: n)))) j) = true
        · exfalso
          have hb2 : tokenBefore (u ++ (s1 :: ("images".toList ++ (s2 :: n)))) j = true := by
            rw [Bool.and_eq_true] at hb
            exact hb.2
          have hmono := tokenBefore_mono _ j u.length (by omega) hb2
          rw [hmono] at htok2
          exact absurd htok2 (by simp)
        · simpa using hb
    unfold pass2
    rw [hfind]

theorem stripDotSlash_self (c : Char) (t : Str) (h1 : c ≠ '.') (h2 : c ≠ '/') :
    stripDotSlash (c :: t) = c :: t := by
  simp [stripDotSlash, h1, h2]

theorem stripDotSlash_subset (v : Str) : ∀ x ∈ stripDotSlash v, x ∈ v := by
  intro x hx
  cases v with
  | nil => simp [stripDotSlash] at hx
  | cons c t =>
    by_cases hc : c = '.'
    · cases t with
      | nil => simp [stripDotSlash, hc] at hx
      | cons c2 t2 =>
        by_cases hc2 : c2 = '/'
        · simp [stripDotSlash, hc, hc2] at hx
          exact List.mem_cons_of_mem _ (List.mem_cons_of_mem _ hx)
        · simp [stripDotSlash, hc, hc2] at hx
          exact List.mem_cons_of_mem _ (List.mem_cons.mpr hx)
    · by_cases hc3 : c = '/'
      · simp [stripDotSlash, hc, hc3] at hx
        exact List.mem_cons_of_mem _ hx
      · simpa [stripDotSlash, hc, hc3] using hx

theorem pass1_id_of_not_images (base v : Str)
    (h : ¬ ("images/".toList <+: stripDotSlash v)) : pass1 base v = v := by
  simp only [pass1]
  rw [if_neg]
  intro hb
  rw [Bool.and_eq_true] at hb
  exact h ((List.isPrefixOf_iff_prefix).mp hb.1)

theorem pass1_id_of_head (base : Str) (c : Char) (t : Str)
    (h1 : c ≠ '.') (h2 : c ≠ '/') (h3 : c ≠ 'i') : pass1 base (c :: t) = c :: t := by
  apply pass1_id_of_not_images
  rw [stripDotSlash_self c t h1 h2]
  intro hb
  have : 'i' = c := (List.cons_prefix_cons.mp hb).1
  exact h3 this.symm

theorem pass1_id_of_no_slash (base v : Str) (h : '/' ∉ v) : pass1 base v = v := by
  apply pass1_id_of_not_images
  intro hb
  have : '/' ∈ stripDotSlash v := hb.subset (by decide)
  exact h (stripDotSlash_subset v _ this)

theorem pass1_images (base n : Str) (hn : n ≠ []) :
    pass1 base ("images/".toList ++ n) =
      base ++ ('/' :: ("images".toList ++ ('/' :: n))) := by
  have hstrip : stripDotSlash ("images/".toList ++ n) = "images/".toList ++ n := by
    have : "images/".toList ++ n = 'i' :: ("mages/".toList ++ n) := rfl
    rw [this, stripDotSlash_self 'i' _ (by decide) (by decide)]
  have hlen : 7 < ("images/".toList ++ n).length := by
    have hnpos : 0 < n.length := List.length_pos.mpr hn
    have h7 : ("images/".toList).length = 7 := rfl
    simp [List.length_append, h7]
    omega
  simp only [pass1]
  rw [hstrip, if_pos]
  · rfl
  · rw [Bool.and_eq_true]
    constructor
    · exact (List.isPrefixOf_iff_prefix).mpr (List.prefix_append _ _)
    · simpa using hlen

theorem pass1_dot_images (base n : Str) (hn : n ≠ []) :
    pass1 base ("./images/".toList ++ n) =
      base ++ ('/' :: ("images".toList ++ ('/' :: n))) := by
  have hconv : "./images/".toList ++ n = '.' :: '/' :: ("images/".toList ++ n) := rfl
  have hstrip : stripDotSlash ("./images/".toList ++ n) = "images/".toList ++ n := by
    rw [hconv]
    simp [stripDotSlash]
  have hlen : 7 < ("images/".toList ++ n).length := by
    have hnpos : 0 < n.length := List.length_pos.mpr hn
    have h7 : ("images/".toList).length = 7 := rfl
    simp [List.length_append, h7]
    omega
  simp only [pass1]
  rw [hstrip, if_pos]
  · rfl
  · rw [Bool.and_eq_true]
    constructor
    · exact (List.isPrefixOf_iff_prefix).mpr (List.prefix_append _ _)
    · simpa using hlen

theorem p3At_canonical_max (u n : Str) (hnsep : ∀ ch ∈ n, isSep ch = false)
    (k : Nat) (hk : u.length < k) :
    p3At (u ++ ('\\' :: ("images".toList ++ ('\\' :: n)))) k = false := by
  by_cases hb : p3At (u ++ ('\\' :: ("images".toList ++ ('\\' :: n)))) k = true
  · exfalso
    unfold p3At at hb
    rw [Bool.and_eq_true] at hb
    obtain ⟨hpat, _⟩ := hb
    rw [patAt_iff] at hpat
    obtain ⟨t, ht⟩ := hpat
    have hd7 : (u ++ ('\\' :: ("images".toList ++ ('\\' :: n)))).drop (k + 7) =
        '\\' :: t := by
      rw [← List.drop_drop 7 k, ← ht]
      rfl
    have harith : k + 7 = u.length + (8 + (k - u.length - 1)) := by omega
    have hd : (u ++ ('\\' :: ("images".toList ++ ('\\' :: n)))).drop (k + 7) =
        n.drop (k - u.length - 1) := by
      rw [harith, List.drop_append (8 + (k - u.length - 1)),
        ← List.drop_drop (k - u.length - 1) 8]
      rfl
    have hmem : '\\' ∈ n := by
      refine List.mem_of_mem_drop (?_ : _ ∈ n.drop (k - u.length - 1))
      rw [← hd, hd7]
      exact List.mem_cons_self _ _
    exact absurd (hnsep '\\' hmem) (by decide)
  · simpa using hb

theorem pass3_canonical (baseUrl u n : Str) (hn : n ≠ [])
    (hnsep : ∀ ch ∈ n, isSep ch = false) :
    pass3 baseUrl (u ++ ('\\' :: ("images".toList ++ ('\\' :: n)))) =
      baseUrl ++ "/images/".toList ++ n := by
  have hnpos : 0 < n.length := List.length_pos.mpr hn
  have hlen := len_canonical u n '\\' '\\'
  have hd0 : (u ++ ('\\' :: ("images".toList ++ ('\\' :: n)))).drop u.length =
      "\\images\\".toList ++ n := List.drop_left _ _
  have hfind : findLastIdx (p3At (u ++ ('\\' :: ("images".toList ++ ('\\' :: n)))))
      (u ++ ('\\' :: ("images".toList ++ ('\\' :: n)))).length = some u.length := by
    refine findLastIdx_eq_some _ _ u.length (by omega) ?_ ?_
    · unfold p3At
      rw [Bool.and_eq_true]
      constructor
      · rw [patAt_iff, hd0]
        exact List.prefix_append _ _
      · simp only [decide_eq_true_eq]
        omega
    · intro k h1 _
      exact p3At_canonical_max u n hnsep k h1
  unfold pass3
  rw [hfind]
  show baseUrl ++ "/images/".toList ++
      (u ++ ('\\' :: ("images".toList ++ ('\\' :: n)))).drop (u.length + 8) =
    baseUrl ++ "/images/".toList ++ n
  rw [drop_canonical_8]

theorem pass3_id_of_no_backslash (baseUrl v : Str) (h : ∀ ch ∈ v, ch ≠ '\\') :
    pass3 baseUrl v = v := by
  have hfind : findLastIdx (p3At v) v.length = none := by
    refine findLastIdx_eq_none _ _ ?_
    intro j _
    by_cases hb : p3At v j = true
    · exfalso
      unfold p3At at hb
      rw [Bool.and_eq_true] at hb
      have hpat := hb.1
      rw [patAt_iff] at hpat
      have hmem : '\\' ∈ v.drop j := hpat.subset (by decide)
      exact h '\\' (List.mem_of_mem_drop hmem) rfl
    · simpa using hb
  unfold pass3
  rw [hfind]

theorem pass4_id_of_http (baseUrl v : Str) (h : httpDataStart v = true) :
    pass4 baseUrl v = v := by
  unfold pass4
  rw [if_pos h]

theorem p4At_canonical_max (u n : Str) (hnsep : ∀ ch ∈ n, isSep ch = false)
    (k : Nat) (hk : u.length + 1 < k) :
    p4At (u ++ ('/' :: ("images".toList ++ ('/' :: n)))) k = false := by
  by_cases hb : p4At (u ++ ('/' :: ("images".toList ++ ('/' :: n)))) k = true
  · exfalso
    unfold p4At at hb
    rw [Bool.and_eq_true] at hb
    obtain ⟨hb1, _⟩ := hb
    rw [Bool.and_eq_true] at hb1
    have hpat := hb1.1
    rw [patAt_iff] at hpat
    obtain ⟨t, ht⟩ := hpat
    have hd6 : (u ++ ('/' :: ("images".toList ++ ('/' :: n)))).drop (k + 6) =
        '/' :: t := by
      rw [← List.drop_drop 6 k, ← ht]
      rfl
    have harith : k + 6 = u.length + (8 + (k - u.length - 2)) := by omega
    have hd : (u ++ ('/' :: ("images".toList ++ ('/' :: n)))).drop (k + 6) =
        n.drop (k - u.length - 2) := by
      rw [harith, List.drop_append (8 + (k - u.length - 2)),
        ← List.drop_drop (k - u.length - 2) 8]
      rfl
    have hmem : '/' ∈ n := by
      refine List.mem_of_mem_drop (?_ : _ ∈ n.drop (k - u.length - 2))
      rw [← hd, hd6]
      exact List.mem_cons_self _ _
    exact absurd (hnsep '/' hmem) (by decide)
  · simpa using hb

theorem pass4_stable (baseUrl n : Str) (hn : n ≠ [])
    (hnsep : ∀ ch ∈ n, isSep ch = false) :
    pass4 baseUrl (baseUrl ++ ('/' :: ("images".toList ++ ('/' :: n)))) =
      baseUrl ++ ('/' :: ("images".toList ++ ('/' :: n))) := by
  by_cases hhttp : httpDataStart (baseUrl ++ ('/' :: ("images".toList ++ ('/' :: n)))) = true
  · exact pass4_id_of_http _ _ hhttp
  · have hnpos : 0 < n.length := List.length_pos.mpr hn
    have hlen := len_canonical baseUrl n '/' '/'
    have hd1 : (baseUrl ++ ('/' :: ("images".toList ++ ('/' :: n)))).drop
        (baseUrl.length + 1) = "images".toList ++ ('/' :: n) := by
      rw [List.drop_append 1]
      rfl
    have hd0 : (baseUrl ++ ('/' :: ("images".toList ++ ('/' :: n)))).drop
        baseUrl.length = '/' :: ("images".toList ++ ('/' :: n)) := List.drop_left _ _
    have hfind : findLastIdx (p4At (baseUrl ++ ('/' :: ("images".toList ++ ('/' :: n)))))
        (baseUrl ++ ('/' :: ("images".toList ++ ('/' :: n)))).length =
        some (baseUrl.length + 1) := by
      refine findLastIdx_eq_some _ _ (baseUrl.length + 1) (by omega) ?_ ?_
      · unfold p4At
        rw [Bool.and_eq_true]
        constructor
        · rw [Bool.and_eq_true]
          constructor
          · rw [patAt_iff, hd1]
            have hsplit : "images".toList ++ ('/' :: n) = "images/".toList ++ n := rfl
            rw [hsplit]
            exact List.prefix_append _ _
          · simp only [decide_eq_true_eq]
            omega
        · rw [Bool.or_eq_true]
          right
          have harith2 : baseUrl.length + 1 - 1 = baseUrl.length := by omega
          unfold isSlashAt
          rw [harith2, hd0]
          rfl
      · intro k h1 _
        exact p4At_canonical_max baseUrl n hnsep k h1
    unfold pass4
    rw [if_neg (by simpa using hhttp), hfind]
    show baseUrl ++ "/images/".toList ++
        (baseUrl ++ ('/' :: ("images".toList ++ ('/' :: n)))).drop
          (baseUrl.length + 1 + 7) = baseUrl ++ ('/' :: ("images".toList ++ ('/' :: n)))
    have harith : baseUrl.length + 1 + 7 = baseUrl.length + 8 := by omega
    rw [harith, drop_canonical_8, List.append_assoc]
    rfl

/-- Claim-side shape matched by pattern 2: a `temp_jobs` or `output`
segment followed, later in the value, by `[\/\\]images[\/\\]` and a
non-empty tail. -/
def pattern2Shape (v : Str) : Prop :=
  ∃ x t y m : Str, ∃ s1 s2 : Char,
    (t = "temp_jobs".toList ∨ t = "output".toList) ∧
    isSep s1 = true ∧ isSep s2 = true ∧ m ≠ [] ∧
    v = x ++ (t ++ (y ++ (s1 :: ("images".toList ++ (s2 :: m)))))

/-- Claim-side shape matched by pattern 3: a backslash-delimited
`\images\` segment with a non-empty tail. -/
def pattern3Shape (v : Str) : Prop :=
  ∃ x m : Str, m ≠ [] ∧ v = x ++ ("\\images\\".toList ++ m)

theorem sepImagesAt_decomp (v : Str) (j : Nat) (h : sepImagesAt v j = true) :
    ∃ s1 s2 : Char, ∃ m : Str, isSep s1 = true ∧ isSep s2 = true ∧ m ≠ [] ∧
      v.drop j = s1 :: ("images".toList ++ (s2 :: m)) := by
  unfold sepImagesAt isSepAt at h
  rw [Bool.and_eq_true, Bool.and_eq_true, Bool.and_eq_true] at h
  obtain ⟨⟨⟨h1, h2⟩, h3⟩, h4⟩ := h
  cases hd : v.drop j with
  | nil => rw [hd] at h1; exact absurd h1 (by decide)
  | cons s1 t1 =>
    rw [hd] at h1
    rw [patAt_iff] at h2
    have hdt : v.drop (j + 1) = t1 := by
      rw [← List.drop_drop 1 j, hd]
      rfl
    rw [hdt] at h2
    obtain ⟨t2, ht2⟩ := h2
    have hd7 : v.drop (j + 7) = t2 := by
      rw [← List.drop_drop 7 j, hd,
        show List.drop 7 (s1 :: t1) = List.drop 6 t1 from rfl, ← ht2]
      rw [List.drop_left' (by decide : ("images".toList).length = 6)]
    rw [hd7] at h3
    cases hc2 : t2 with
    | nil => rw [hc2] at h3; exact absurd h3 (by decide)
    | cons s2 m =>
      rw [hc2] at h3
      have hm : v.drop (j + 8) = m := by
        rw [← List.drop_drop 1 (j + 7), hd7, hc2]
        rfl
      have hlen : j + 8 < v.length := by simpa using h4
      have hmne : m ≠ [] := by
        intro hme
        rw [hme] at hm
        have hlm := congrArg List.length hm
        rw [List.length_drop] at hlm
        simp at hlm
        omega
      refine ⟨s1, s2, m, by simpa [headSep] using h1, by simpa [headSep] using h3,
        hmne, ?_⟩
      rw [← ht2, hc2]

theorem pattern2Shape_of_scan (v : Str) (j : Nat)
    (hsep : sepImagesAt v j = true) (htok : tokenBefore v j = true) :
    pattern2Shape v := by
  obtain ⟨s1, s2, m, hs1, hs2, hm, hdj⟩ := sepImagesAt_decomp v j hsep
  obtain ⟨i, hi⟩ := tokenBefore_elim v j htok
  have hcase : ∃ t : Str, (t = "temp_jobs".toList ∨ t = "output".toList) ∧
      patAt t v i = true ∧ i + t.length ≤ j := by
    rcases hi with ⟨hp, hb⟩ | ⟨hp, hb⟩
    · refine ⟨"temp_jobs".toList, Or.inl rfl, hp, ?_⟩
      have h9 : ("temp_jobs".toList).length = 9 := rfl
      omega
    · refine ⟨"output".toList, Or.inr rfl, hp, ?_⟩
      have h6 : ("output".toList).length = 6 := rfl
      omega
  obtain ⟨t, htk, hp, hilen⟩ := hcase
  rw [patAt_iff] at hp
  obtain ⟨rest, hrest⟩ := hp
  have h2 : v.drop (i + t.length) = rest := by
    rw [← List.drop_drop t.length i, ← hrest, List.drop_left]
  have h3 : v.drop j = (v.drop (i + t.length)).drop (j - (i + t.length)) := by
    rw [List.drop_drop]
    congr 1
    omega
  have h4 : v.drop i =
      t ++ ((v.drop (i + t.length)).take (j - (i + t.length)) ++ v.drop j) := by
    conv_lhs => rw [← hrest]
    congr 1
    rw [h3, List.take_append_drop, h2]
  refine ⟨v.take i, t, (v.drop (i + t.length)).take (j - (i + t.length)), m, s1, s2,
    htk, hs1, hs2, hm, ?_⟩
  conv_lhs => rw [← List.take_append_drop i v, h4, hdj]

theorem pattern3Shape_of_scan (v : Str) (j : Nat) (h : p3At v j = true) :
    pattern3Shape v := by
  unfold p3At at h
  rw [Bool.and_eq_true] at h
  obtain ⟨hp, hlen⟩ := h
  rw [patAt_iff] at hp
  obtain ⟨t, ht⟩ := hp
  have hm : v.drop (j + 8) = t := by
    rw [← List.drop_drop 8 j, ← ht]
    rfl
  have hlen2 : j + 8 < v.length := by simpa using hlen
  have htne : t ≠ [] := by
    intro he
    rw [he] at hm
    have hlm := congrArg List.length hm
    rw [List.length_drop] at hlm
    simp at hlm
    omega
  refine ⟨v.take j, t, htne, ?_⟩
  conv_lhs => rw [← List.take_append_drop j v, ← ht]

theorem pass2_id_of_no_shape (baseUrl v : Str) (h : ¬ pattern2Shape v) :
    pass2 baseUrl v = v := by
  have hfind : findLastIdx (fun j => sepImagesAt v j && tokenBefore v j)
      v.length = none := by
    refine findLastIdx_eq_none _ _ ?_
    intro j _
    by_cases hb : (sepImagesAt v j && tokenBefore v j) = true
    · exfalso
      rw [Bool.and_eq_true] at hb
      exact h (pattern2Shape_of_scan v j hb.1 hb.2)
    · simpa using hb
  unfold pass2
  rw [hfind]

theorem pass3_id_of_no_shape (baseUrl v : Str) (h : ¬ pattern3Shape v) :
    pass3 baseUrl v = v := by
  have hfind : findLastIdx (p3At v) v.length = none := by
    refine findLastIdx_eq_none _ _ ?_
    intro j _
    by_cases hb : p3At v j = true
    · exact absurd (pattern3Shape_of_scan v j hb) h
    · simpa using hb
  unfold pass3
  rw [hfind]

theorem removeFirst_at (pat v : Str) (i : Nat) (hi : i ≤ v.length)
    (hp : pat.isPrefixOf (v.drop i) = true)
    (hmin : ∀ k, k < i → pat.isPrefixOf (v.drop k) = false) :
    removeFirst pat v = v.take i ++ v.drop (i + pat.length) := by
  have hfind : (List.range (v.length + 1)).find?
      (fun k => pat.isPrefixOf (v.drop k)) = some i := by
    have hsplit : List.range (v.length + 1) =
        List.range i ++ List.map (fun x => i + x) (List.range (v.length + 1 - i)) := by
      rw [← List.range_add]
      congr 1
      omega
    rw [hsplit, List.find?_append]
    have h1 : (List.range i).find? (fun k => pat.isPrefixOf (v.drop k)) = none :=
      List.find?_eq_none.mpr (by
        intro x hx
        simp [hmin x (List.mem_range.mp hx)])
    rw [h1]
    have h2 : v.length + 1 - i = (v.length - i) + 1 := by omega
    rw [h2, List.range_succ_eq_map, List.map_cons]
    rw [List.find?_cons_of_pos _ (by simpa using hp)]
    simp
  unfold removeFirst
  rw [hfind]

theorem resultHtml_no_border (d : Nat) (h1 : 1 ≤ d) (h2 : d < 12)
    (he : "/result.html".toList.drop d = "/result.html".toList.take (12 - d)) :
    False := by
  interval_cases d <;> exact absurd he (by decide)

theorem baseUrlOf_eq (base : Str) (hres : ¬ ("/result.html".toList <:+: base)) :
    baseUrlOf (base ++ "/result.html".toList) = base := by
  have h12 : ("/result.html".toList).length = 12 := rfl
  have hp : "/result.html".toList.isPrefixOf
      ((base ++ "/result.html".toList).drop base.length) = true := by
    rw [List.drop_left]
    exact (List.isPrefixOf_iff_prefix).mpr List.prefix_rfl
  have hmin : ∀ k, k < base.length →
      "/result.html".toList.isPrefixOf ((base ++ "/result.html".toList).drop k) = false := by
    intro k hk
    by_cases hb : "/result.html".toList.isPrefixOf
        ((base ++ "/result.html".toList).drop k) = true
    · exfalso
      rw [List.isPrefixOf_iff_prefix] at hb
      have hdk : (base ++ "/result.html".toList).drop k =
          base.drop k ++ "/result.html".toList := by
        rw [List.drop_append_eq_append_drop, Nat.sub_eq_zero_of_le (by omega),
          List.drop_zero]
      rw [hdk] at hb
      obtain ⟨t, ht⟩ := hb
      have hxlen : 1 ≤ (base.drop k).length := by
        rw [List.length_drop]
        omega
      by_cases hd12 : 12 ≤ (base.drop k).length
      · have h1 := congrArg (List.take 12) ht
        rw [List.take_left' h12] at h1
        rw [List.take_append_eq_append_take, Nat.sub_eq_zero_of_le hd12,
          List.take_zero, List.append_nil] at h1
        have hpre : "/result.html".toList <+: base.drop k := by
          rw [h1]
          exact List.take_prefix _ _
        obtain ⟨s, hs⟩ := hpre
        refine hres ⟨base.take k, s, ?_⟩
        rw [List.append_assoc, hs, List.take_append_drop]
      · have hd : (base.drop k).length < 12 := by omega
        have h1 := congrArg (List.drop (base.drop k).length) ht
        rw [List.drop_left] at h1
        rw [List.drop_append_eq_append_drop, Nat.sub_eq_zero_of_le (by omega),
          List.drop_zero] at h1
        have h2 := congrArg (List.take (12 - (base.drop k).length)) h1
        rw [List.take_left' (by rw [List.length_drop, h12])] at h2
        exact resultHtml_no_border (base.drop k).length hxlen hd h2
    · exact Bool.eq_false_iff.mpr hb
  have hrem := removeFirst_at "/result.html".toList (base ++ "/result.html".toList)
    base.length (by simp [List.length_append]) hp hmin
  unfold baseUrlOf
  rw [hrem, List.take_left, h12, List.drop_append 12]
  simp

theorem scan_of_pattern2Shape (v : Str) (h : pattern2Shape v) :
    ∃ j, j < v.length ∧ sepImagesAt v j = true ∧ tokenBefore v j = true := by
  obtain ⟨x, t, y, m, s1, s2, htk, hs1, hs2, hm, hv⟩ := h
  have hv2 : v = ((x ++ t) ++ y) ++ (s1 :: ("images".toList ++ (s2 :: m))) := by
    rw [hv, List.append_assoc, List.append_assoc]
  have hsep : sepImagesAt v ((x ++ t) ++ y).length = true := by
    rw [hv2]
    exact sepImagesAt_canonical _ m s1 s2 hs1 hs2 hm
  have hpat : patAt t v x.length = true := by
    rw [patAt_iff, hv, List.drop_left]
    exact List.prefix_append _ _
  have htok : tokenBefore v ((x ++ t) ++ y).length = true := by
    rcases htk with h9 | h6
    · refine tokenBefore_intro_temp v x.length _ (by rw [← h9]; exact hpat) ?_
      have : t.length = 9 := by rw [h9]; rfl
      simp [List.length_append]
      omega
    · refine tokenBefore_intro_out v x.length _ (by rw [← h6]; exact hpat) ?_
      have : t.length = 6 := by rw [h6]; rfl
      simp [List.length_append]
      omega
  refine ⟨((x ++ t) ++ y).length, ?_, hsep, htok⟩
  rw [hv2, List.length_append]
  simp
  omega

theorem scan_of_pattern3Shape (v : Str) (h : pattern3Shape v) :
    ∃ j, j < v.length ∧ p3At v j = true := by
  obtain ⟨x, m, hm, hv⟩ := h
  have hmpos : 0 < m.length := List.length_pos.mpr hm
  refine ⟨x.length, ?_, ?_⟩
  · rw [hv, List.length_append, List.length_append]
    have h8 : ("\\images\\".toList).length = 8 := rfl
    omega
  · unfold p3At
    rw [Bool.and_eq_true]
    constructor
    · rw [patAt_iff, hv, List.drop_left]
      exact List.prefix_append _ _
    · simp only [decide_eq_true_eq]
      rw [hv, List.length_append, List.length_append]
      have h8 : ("\\images\\".toList).length = 8 := rfl
      omega

theorem httpDataStart_head (v : Str) (h : httpDataStart v = true) :
    ∃ c : Char, ∃ t : Str, v = c :: t ∧ c ≠ '.' ∧ c ≠ '/' ∧ c ≠ 'i' := by
  unfold httpDataStart at h
  rw [Bool.or_eq_true, Bool.or_eq_true] at h
  rcases h with (h | h) | h
  · rw [List.isPrefixOf_iff_prefix] at h
    obtain ⟨t, ht⟩ := h
    refine ⟨'h', "ttp://".toList ++ t, ?_, by decide, by decide, by decide⟩
    rw [← ht]
    rfl
  · rw [List.isPrefixOf_iff_prefix] at h
    obtain ⟨t, ht⟩ := h
    refine ⟨'h', "ttps://".toList ++ t, ?_, by decide, by decide, by decide⟩
    rw [← ht]
    rfl
  · rw [List.isPrefixOf_iff_prefix] at h
    obtain ⟨t, ht⟩ := h
    refine ⟨'d', "ata:".toList ++ t, ?_, by decide, by decide, by decide⟩
    rw [← ht]
    rfl

theorem no_bs_canonical (base n : Str) (hbase : ∀ ch ∈ base, ch ≠ '\\')
    (hnsep : ∀ ch ∈ n, isSep ch = false) :
    ∀ ch ∈ base ++ ('/' :: ("images".toList ++ ('/' :: n))), ch ≠ '\\' := by
  intro ch hch
  rcases List.mem_append.mp hch with h | h
  · exact hbase ch h
  · rcases List.mem_cons.mp h with rfl | h2
    · decide
    · rcases List.mem_append.mp h2 with h3 | h4
      · intro heq
        subst heq
        revert h3
        decide
      · rcases List.mem_cons.mp h4 with rfl | h5
        · decide
        · intro heq
          subst heq
          exact absurd (hnsep _ h5) (by decide)

theorem flat_eq_canonical (base n : Str) :
    base ++ "/images/".toList ++ n = base ++ ('/' :: ("images".toList ++ ('/' :: n))) := by
  rw [List.append_assoc]
  rfl

/-- C4 (amended): with `baseUrl` obtained by removing the trailing
`/result.html` (legitimate whenever `/result.html` does not occur earlier
in the URL, since line 27 removes the first occurrence), the reader maps
every relative `images/<name>` src — bare, with a `./` prefix, inside a
`temp_jobs/…/output` path, or in backslash form — to
`baseUrl + "/images/" + <name>`, and leaves a src beginning with
`http://`, `https://` or `data:` unchanged provided it does not contain a
`temp_jobs`/`output` segment followed by a slash-or-backslash-delimited
`images` segment (pattern 2 rewrites those) nor a backslash-delimited
`\images\` segment (pattern 3 rewrites those)
(`src/unnamed/part_003` lines 19-51). -/
theorem c4_image_rewrite_amended (base n a b v : Str)
    (hbase : ∀ ch ∈ base, ch ≠ '\\')
    (hres : ¬ ("/result.html".toList <:+: base))
    (hn : n ≠ []) (hnsep : ∀ ch ∈ n, isSep ch = false)
    (hbsl : '/' ∉ b)
    (hvhttp : httpDataStart v = true)
    (hv2 : ¬ pattern2Shape v) (hv3 : ¬ pattern3Shape v) :
    baseUrlOf (base ++ "/result.html".toList) = base ∧
    rewriteValue (baseUrlOf (base ++ "/result.html".toList)) ("images/".toList ++ n) =
      base ++ ("/images/".toList ++ n) ∧
    rewriteValue (baseUrlOf (base ++ "/result.html".toList)) ("./images/".toList ++ n) =
      base ++ ("/images/".toList ++ n) ∧
    rewriteValue (baseUrlOf (base ++ "/result.html".toList))
        ("temp_jobs/".toList ++ a ++ ("/output/images/".toList ++ n)) =
      base ++ ("/images/".toList ++ n) ∧
    rewriteValue (baseUrlOf (base ++ "/result.html".toList))
        (b ++ ("\\images\\".toList ++ n)) =
      base ++ ("/images/".toList ++ n) ∧
    rewriteValue (baseUrlOf (base ++ "/result.html".toList)) v = v := by
  have hb0 := baseUrlOf_eq base hres
  rw [hb0]
  have hstab : pass4 base (pass3 base (base ++ ('/' :: ("images".toList ++ ('/' :: n))))) =
      base ++ ('/' :: ("images".toList ++ ('/' :: n))) := by
    rw [pass3_id_of_no_backslash base _ (no_bs_canonical base n hbase hnsep),
      pass4_stable base n hn hnsep]
  refine ⟨rfl, ?_, ?_, ?_, ?_, ?_⟩
  · show pass4 base (pass3 base (pass2 base (pass1 base ("images/".toList ++ n)))) =
      base ++ ("/images/".toList ++ n)
    rw [pass1_images base n hn]
    rcases pass2_cases base base n '/' '/' (by decide) (by decide) hn hnsep with
      ⟨_, hp2⟩ | ⟨_, hp2⟩
    · rw [hp2, flat_eq_canonical, hstab]
      rfl
    · rw [hp2, hstab]
      rfl
  · show pass4 base (pass3 base (pass2 base (pass1 base ("./images/".toList ++ n)))) =
      base ++ ("/images/".toList ++ n)
    rw [pass1_dot_images base n hn]
    rcases pass2_cases base base n '/' '/' (by decide) (by decide) hn hnsep with
      ⟨_, hp2⟩ | ⟨_, hp2⟩
    · rw [hp2, flat_eq_canonical, hstab]
      rfl
    · rw [hp2, hstab]
      rfl
  · show pass4 base (pass3 base (pass2 base (pass1 base
        ("temp_jobs/".toList ++ a ++ ("/output/images/".toList ++ n))))) =
      base ++ ("/images/".toList ++ n)
    have hform : "temp_jobs/".toList ++ a ++ ("/output/images/".toList ++ n) =
        't' :: ("emp_jobs/".toList ++ a ++ ("/output/images/".toList ++ n)) := rfl
    rw [hform, pass1_id_of_head base 't' _ (by decide) (by decide) (by decide), ← hform]
    have hshape : "temp_jobs/".toList ++ a ++ ("/output/images/".toList ++ n) =
        ("temp_jobs/".toList ++ a ++ "/output".toList) ++
          ('/' :: ("images".toList ++ ('/' :: n))) := by
      conv_rhs => rw [List.append_assoc]
      rfl
    rw [hshape]
    have htokk : tokenBefore (("temp_jobs/".toList ++ a ++ "/output".toList) ++
        ('/' :: ("images".toList ++ ('/' :: n))))
        ("temp_jobs/".toList ++ a ++ "/output".toList).length = true := by
      refine tokenBefore_intro_temp _ 0 _ ?_ ?_
      · rw [patAt_iff, List.drop_zero]
        have hpre1 : "temp_jobs".toList <+: "temp_jobs/".toList := ⟨['/'], rfl⟩
        have hmid : ("temp_jobs/".toList ++ a ++ "/output".toList) ++
            ('/' :: ("images".toList ++ ('/' :: n))) =
            "temp_jobs/".toList ++ (a ++ ("/output".toList ++
              ('/' :: ("images".toList ++ ('/' :: n))))) := by
          simp [List.append_assoc]
        rw [hmid]
        exact hpre1.trans (List.prefix_append _ _)
      · have h10 : ("temp_jobs/".toList).length = 10 := rfl
        have h7 : ("/output".toList).length = 7 := rfl
        simp [List.length_append, h10, h7]
    rcases pass2_cases base ("temp_jobs/".toList ++ a ++ "/output".toList) n '/' '/'
      (by decide) (by decide) hn hnsep with ⟨_, hp2⟩ | ⟨hne, _⟩
    · rw [hp2, flat_eq_canonical, hstab]
      rfl
    · rw [htokk] at hne
      simp at hne
  · show pass4 base (pass3 base (pass2 base (pass1 base
        (b ++ ("\\images\\".toList ++ n))))) = base ++ ("/images/".toList ++ n)
    have hnoslash : '/' ∉ b ++ ("\\images\\".toList ++ n) := by
      intro hmem
      rcases List.mem_append.mp hmem with h | h
      · exact hbsl h
      · rcases List.mem_append.mp h with h2 | h2
        · revert h2
          decide
        · exact absurd (hnsep '/' h2) (by decide)
    rw [pass1_id_of_no_slash base _ hnoslash]
    have hv4cons : b ++ ("\\images\\".toList ++ n) =
        b ++ ('\\' :: ("images".toList ++ ('\\' :: n))) := rfl
    rw [hv4cons]
    rcases pass2_cases base b n '\\' '\\' (by decide) (by decide) hn hnsep with
      ⟨_, hp2⟩ | ⟨_, hp2⟩
    · rw [hp2, flat_eq_canonical, hstab]
      rfl
    · rw [hp2, pass3_canonical base b n hn hnsep, flat_eq_canonical,
        pass4_stable base n hn hnsep]
      rfl
  · obtain ⟨c, t, hvf, h1, h2, h3⟩ := httpDataStart_head v hvhttp
    show pass4 base (pass3 base (pass2 base (pass1 base v))) = v
    rw [hvf, pass1_id_of_head base c t h1 h2 h3, ← hvf,
      pass2_id_of_no_shape base v hv2, pass3_id_of_no_shape base v hv3,
      pass4_id_of_http base v hvhttp]

/-- Witness for the amended C4 at concrete URL, names and src values. -/
theorem c4_image_rewrite_amended_witness :
    baseUrlOf ("https://h/b/42".toList ++ "/result.html".toList) = "https://h/b/42".toList ∧
    rewriteValue (baseUrlOf ("https://h/b/42".toList ++ "/result.html".toList))
        ("images/".toList ++ "a.png".toList) =
      "https://h/b/42".toList ++ ("/images/".toList ++ "a.png".toList) ∧
    rewriteValue (baseUrlOf ("https://h/b/42".toList ++ "/result.html".toList))
        ("./images/".toList ++ "a.png".toList) =
      "https://h/b/42".toList ++ ("/images/".toList ++ "a.png".toList) ∧
    rewriteValue (baseUrlOf ("https://h/b/42".toList ++ "/result.html".toList))
        ("temp_jobs/".toList ++ "j7".toList ++ ("/output/images/".toList ++ "a.png".toList)) =
      "https://h/b/42".toList ++ ("/images/".toList ++ "a.png".toList) ∧
    rewriteValue (baseUrlOf ("https://h/b/42".toList ++ "/result.html".toList))
        ("C:".toList ++ ("\\images\\".toList ++ "a.png".toList)) =
      "https://h/b/42".toList ++ ("/images/".toList ++ "a.png".toList) ∧
    rewriteValue (baseUrlOf ("https://h/b/42".toList ++ "/result.html".toList))
        "https://cdn.x.com/p.png".toList = "https://cdn.x.com/p.png".toList :=
  c4_image_rewrite_amended "https://h/b/42".toList "a.png".toList "j7".toList
    "C:".toList "https://cdn.x.com/p.png".toList
    (by decide) (by decide) (by decide) (by decide) (by decide) (by decide)
    (fun h => by
      obtain ⟨j, hj, hsep, htok⟩ := scan_of_pattern2Shape _ h
      exact absurd ⟨hsep, htok⟩
        ((by decide : ∀ j2 < ("https://cdn.x.com/p.png".toList).length,
          ¬(sepImagesAt "https://cdn.x.com/p.png".toList j2 = true ∧
            tokenBefore "https://cdn.x.com/p.png".toList j2 = true)) j hj))
    (fun h => by
      obtain ⟨j, hj, hp3⟩ := scan_of_pattern3Shape _ h
      exact absurd hp3
        ((by decide : ∀ j2 < ("https://cdn.x.com/p.png".toList).length,
          ¬(p3At "https://cdn.x.com/p.png".toList j2 = true)) j hj))
